import Mathlib

/-!
Shallow embedding of the capture-and-recognition pipeline of
`src/main.py` (Lighthouse appliance): the match acceptance policy,
the matching decision loop, the recording pipeline's richest-frame
selection, the two-phase reveal-by-difference capture strategy, the
stability-detector loop, the bounded frame window, and the
busy-flag/strategy-dispatch orchestration.

Scores are embedded as rationals, frames as values of an abstract
type, and the collaborators (camera, database, audio) as explicit
inputs: a candidate frame handed to the database is modelled by the
ranked match list the database would return for it (`none` when
descriptor extraction raises `TooFewFeaturesException`).
-/

namespace Lighthouse

/-- The two configuration values read by the matching decision code
(`options.matching_score_threshold` and `options.matching_score_ratio`). -/
structure MatchingOptions where
  matching_score_threshold : ℚ
  matching_score_ratio : ℚ
deriving DecidableEq

/-- One entry of the list returned by `db.match`: a `(score, item)` pair,
the item abstracted to an identifier. -/
abbrev MatchEntry : Type := ℚ × Nat

/-- The expression `matches[0][0] if len(matches) > 0 else 0` from
`pick_only_accurate_matches`. -/
def best_score_of (ms : List MatchEntry) : ℚ :=
  match ms with
  | [] => 0
  | m :: _ => m.1

/-- The per-match test of the loop body of `pick_only_accurate_matches`:
`match[0] >= options.matching_score_threshold and match[0] >= best_score *
options.matching_score_ratio`. -/
def accepts (o : MatchingOptions) (best : ℚ) (m : MatchEntry) : Bool :=
  decide (o.matching_score_threshold ≤ m.1) &&
    decide (best * o.matching_score_ratio ≤ m.1)

/-- `pick_only_accurate_matches` from `src/main.py`: if the best score meets
the threshold, keep `matches[0]` and then scan the remaining matches in
order, keeping each that passes `accepts` and stopping at the first that
does not (the Python loop `break`), which is exactly `takeWhile`.
The `[]` branch under a satisfied threshold corresponds to the Python code
raising `IndexError` on `matches[0]`; it is reachable only when the
threshold is nonpositive and the input empty, a case no claim touches. -/
def pick_only_accurate_matches (o : MatchingOptions) (ms : List MatchEntry) :
    List MatchEntry :=
  if o.matching_score_threshold ≤ best_score_of ms then
    match ms with
    | [] => []
    | m0 :: rest => m0 :: rest.takeWhile (accepts o m0.1)
  else []

/-- The candidate-scanning loop of `match_item`. Each candidate frame is
represented by what `db.match` does on it: `none` for a
`TooFewFeaturesException`, `some ms` for a returned ranked list. The
accumulator `acc` is the Python variable `matches` (initially `[]`); an
exception leaves it unchanged (`continue`), a returned list replaces it,
and the loop breaks as soon as the returned list is non-empty with top
score meeting the threshold. The first component counts how many
candidates were consulted (how many loop iterations ran). -/
def match_scan (thr : ℚ) (acc : List MatchEntry) :
    List (Option (List MatchEntry)) → Nat × List MatchEntry
  | [] => (0, acc)
  | c :: cs =>
    match c with
    | none =>
      let r := match_scan thr acc cs
      (r.1 + 1, r.2)
    | some ms =>
      match ms with
      | [] =>
        let r := match_scan thr ms cs
        (r.1 + 1, r.2)
      | m0 :: _ =>
        if thr ≤ m0.1 then (1, ms)
        else
          let r := match_scan thr ms cs
          (r.1 + 1, r.2)

/-- The user-facing outcome of `match_item`: which audio is played.
`multipleItems` carries the accurate matches in the order their labels
are played. -/
inductive MatchOutcome where
  | nothingRecognized
  | noItem
  | singleItem (score : ℚ) (item : Nat)
  | multipleItems (accurate : List MatchEntry)
deriving DecidableEq

/-- The classification `match_item` performs after its scanning loop:
empty `matches` plays `nothing_recognized.wav`; otherwise the accurate
subset is computed and its size (0 / 1 / several) selects the audio. -/
def match_outcome_of (o : MatchingOptions) (ms : List MatchEntry) :
    MatchOutcome :=
  match ms with
  | [] => .nothingRecognized
  | _ :: _ =>
    match pick_only_accurate_matches o ms with
    | [] => .noItem
    | [(score, item)] => .singleItem score item
    | accurate_matches => .multipleItems accurate_matches

/-- `match_item` from `src/main.py`, as a function from the candidate
frames (each given by its database response) to the audio outcome. -/
def match_item (o : MatchingOptions) (cands : List (Option (List MatchEntry))) :
    MatchOutcome :=
  match_outcome_of o (match_scan o.matching_score_threshold [] cands).2

/-- Descending order by score, the invariant of lists returned by
`db.match`. -/
def SortedDesc (l : List MatchEntry) : Prop :=
  l.Pairwise fun a b => b.1 ≤ a.1

instance (l : List MatchEntry) : Decidable (SortedDesc l) := by
  unfold SortedDesc
  infer_instance

/-- One step of the best-frame tracking in `record_new_item`: `f` is the
descriptor count extracted from the frame at index `i` (`none` when
`ImageDescription.from_image` raises `TooFewFeaturesException`), and the
running best is replaced exactly when the new count is strictly greater
(`len(best_description.features) < len(description.features)`). -/
def pick_step (i : Nat) (best : Option (Nat × Nat)) (f : Option Nat) :
    Option (Nat × Nat) :=
  match f with
  | none => best
  | some c =>
    match best with
    | none => some (i, c)
    | some (bi, bc) => if bc < c then some (i, c) else some (bi, bc)

/-- The frame loop of `record_new_item`, threading the running best
`(index, descriptor count)` pair; `i` is the index of the next frame. -/
def pick_richest_from (best : Option (Nat × Nat)) (i : Nat) :
    List (Option Nat) → Option (Nat × Nat)
  | [] => best
  | f :: fs => pick_richest_from (pick_step i best f) (i + 1) fs

/-- The frame selected by `record_new_item` over a whole candidate list,
as `(index, descriptor count)`; `none` when every frame fails extraction. -/
def pick_richest (frames : List (Option Nat)) : Option (Nat × Nat) :=
  pick_richest_from none 0 frames

/-- The user-facing outcome of `record_new_item`: either the
`nothing_recognized.wav` cue with no database commit, or a commit of the
frame at the given index with the given descriptor count. -/
inductive RecordOutcome where
  | nothingRecognized
  | committed (index : Nat) (descCount : Nat)
deriving DecidableEq

/-- `record_new_item` from `src/main.py`, restricted to its frame
selection and commit decision (the audio-recording retry loop does not
affect which frame is committed). -/
def record_new_item (frames : List (Option Nat)) : RecordOutcome :=
  match pick_richest frames with
  | none => .nothingRecognized
  | some (i, c) => .committed i c

/-- Correctness predicate for the running best of `record_new_item`
over a processed prefix: `none` means every frame so far failed
extraction; `some (i, c)` means frame `i` has count `c`, no frame beats
`c`, and any frame tying `c` does not precede frame `i`. -/
def GoodPick (l : List (Option Nat)) : Option (Nat × Nat) → Prop
  | none => ∀ f ∈ l, f = none
  | some (i, c) =>
    l[i]? = some (some c) ∧
      ∀ j cj, l[j]? = some (some cj) → cj ≤ c ∧ (cj = c → i ≤ j)

/-- The untyped return value of a capture strategy in `src/main.py`:
either a list of frames or a number of seconds before retrying
(`capture_frames_then` distinguishes the two with `isinstance`). -/
inductive PyCaptureResult (F : Type) where
  | frames (fs : List F)
  | delay (seconds : ℚ)
deriving DecidableEq

/-- `capture_by_unhiding` from `src/main.py`, as a transition on the
module-global slot `_full_image_for_capture_by_unhiding` (the pending
reveal). `captured` is the frame the camera produces during this
invocation (phase 1: the reference shot; phase 2: the stabilized
background-only shot) and `isolate` is the frame-difference background
isolation computing the single object frame from the phase-1 reference
and the phase-2 frame. Returns the Python return value paired with the
new content of the global slot. -/
def capture_by_unhiding (F : Type) (isolate : F → F → F)
    (pending : Option F) (captured : F) : PyCaptureResult F × Option F :=
  match pending with
  | none => (.delay 0, some captured)
  | some full_image => (.frames [isolate full_image captured], none)

/-- State of the stability-detector loop shared by the capture
strategies: the `previous_frame` variable, the
`stable_captured_frames` counter, and (as a ghost trace) the list of
`(previous, current)` pairs on which `cv2.norm` was evaluated. -/
structure StabState (F : Type) where
  previous_frame : Option F
  stable_captured_frames : Nat
  compared : List (F × F)

/-- One iteration of the stability check: when a previous frame exists,
compare it with the newly captured frame against the limit
`surface * options.motion_stability_factor` (increment the counter on a
small difference, reset it on a large one); in either case the new frame
becomes the previous frame. When no previous frame exists the comparison
is skipped. -/
def stability_step (F : Type) (diff : F → F → ℚ) (limit : ℚ)
    (s : StabState F) (frame : F) : StabState F :=
  match s.previous_frame with
  | none => { s with previous_frame := some frame }
  | some prev =>
    { previous_frame := some frame
      stable_captured_frames :=
        if diff prev frame ≤ limit then s.stable_captured_frames + 1 else 0
      compared := s.compared ++ [(prev, frame)] }

/-- The stability checks performed while the loop captures the given
frames in order, from an initial state. -/
def stability_run (F : Type) (diff : F → F → ℚ) (limit : ℚ)
    (s₀ : StabState F) (frames : List F) : StabState F :=
  frames.foldl (stability_step F diff limit) s₀

/-- Initial loop state of `capture_by_subtracting` and
`capture_moving_objects`: `previous_frame = None`. -/
def subtracting_init (F : Type) : StabState F :=
  { previous_frame := none, stable_captured_frames := 0, compared := [] }

/-- Initial loop state of the phase-2 loop of `capture_by_unhiding`:
`previous_frame = full_image`, the reference frame captured in phase 1. -/
def unhiding_init (F : Type) (full_image : F) : StabState F :=
  { previous_frame := some full_image, stable_captured_frames := 0
    compared := [] }

/-- A concrete difference metric on integer-valued sample frames, used
only to evaluate the stability loop on concrete inputs. -/
def diff_abs (a b : ℤ) : ℚ :=
  ((a - b).natAbs : ℚ)

/-- The configuration values sizing the frame window of
`capture_by_subtracting`. -/
structure MotionOptions where
  motion_skip_frames : Nat
  matching_n_frames : Nat
deriving DecidableEq

/-- `expected_number_of_frames` as computed in `capture_by_subtracting`:
`options.motion_skip_frames + options.matching_n_frames`. -/
def expected_number_of_frames (o : MotionOptions) : Nat :=
  o.motion_skip_frames + o.matching_n_frames

/-- One acquisition step of the capture loop: append the new frame, then
drop the oldest frame (`captured_frames[1:]`) whenever the window exceeds
the bound. -/
def window_append (F : Type) (bound : Nat) (w : List F) (f : F) : List F :=
  let w2 := w ++ [f]
  if bound < w2.length then w2.tail else w2

/-- The whole acquisition phase of `capture_by_subtracting` as far as the
window is concerned: starting from an empty window, every captured frame
is appended with eviction, and nothing else mutates the window. -/
def capture_window (F : Type) (o : MotionOptions) (frames : List F) : List F :=
  frames.foldl (window_append F (expected_number_of_frames o)) []

/-- A deferred call registered with `eventloop.later` by
`capture_frames_then`: either the `ready` cue (which clears the busy
flag) or a re-invocation of the capture. -/
inductive ScheduledCall where
  | readyCall (delaySeconds : ℚ)
  | retryCapture (delaySeconds : ℚ)
deriving DecidableEq

/-- The observable effect of one `capture_frames_then` invocation: the
busy flag after it runs, the frames passed synchronously to the callback
(if any), and the deferred call registered (if any). -/
structure CaptureStep (F : Type) where
  busy : Bool
  callback_frames : Option (List F)
  scheduled : Option ScheduledCall
deriving DecidableEq

/-- The tail of `capture_frames_then` after a strategy returned: a list
means the callback runs now and `ready` is scheduled after 0.5 seconds;
a number means the capture is rescheduled after that many seconds (the
busy flag stays set in both cases). -/
def capture_dispatch (F : Type) (r : PyCaptureResult F) :
    Except (CaptureStep F) (CaptureStep F) :=
  match r with
  | .frames fs => .ok { busy := true, callback_frames := some fs
                        scheduled := some (.readyCall (1 / 2)) }
  | .delay d => .ok { busy := true, callback_frames := none
                      scheduled := some (.retryCapture d) }

/-- `capture_frames_then` from `src/main.py`: sets the busy flag, selects
the capture strategy by its configured name, and dispatches on its
result. An unknown name raises (`Except.error`), with the busy flag
already set, no callback invoked and nothing scheduled. `run` gives the
result of executing the strategy selected by each known name. -/
def capture_frames_then (F : Type) (run : String → PyCaptureResult F)
    (strategy : String) : Except (CaptureStep F) (CaptureStep F) :=
  if strategy = "keep-everything" then capture_dispatch F (run strategy)
  else if strategy = "now-you-see-me" then capture_dispatch F (run strategy)
  else if strategy = "moving-object" then capture_dispatch F (run strategy)
  else .error { busy := true, callback_frames := none, scheduled := none }

/-- What a button or keyboard event makes the program do. -/
inductive HandlerAction where
  | ignored
  | cameraStart
  | captureThenMatch
  | captureThenRecord
  | systemExit
  | printInstructions
  | noAction
deriving DecidableEq

/-- `button_handler` from `src/main.py`: every event is ignored while the
busy flag is set; otherwise `press`, `click` and `longpress` select an
action and anything else does nothing. -/
def button_handler (busy : Bool) (event : String) : HandlerAction :=
  if busy then .ignored
  else if event = "press" then .cameraStart
  else if event = "click" then .captureThenMatch
  else if event = "longpress" then .captureThenRecord
  else .noAction

/-- `keyboard_handler` from `src/main.py`: every key is ignored while the
busy flag is set; otherwise R/r records, M/m matches, Q/q exits, and
anything else prints the instructions. -/
def keyboard_handler (busy : Bool) (key : Option Char) : HandlerAction :=
  if busy then .ignored
  else if key = some 'R' ∨ key = some 'r' then .captureThenRecord
  else if key = some 'M' ∨ key = some 'm' then .captureThenMatch
  else if key = some 'Q' ∨ key = some 'q' then .systemExit
  else .printInstructions

/-- `ready` from `src/main.py` sets the busy flag to this value (and
plays the chirp); it is the only place the flag is cleared. -/
def ready : Bool := false

/-! ## Helper lemmas -/

theorem accepts_eq_true_iff (o : MatchingOptions) (best : ℚ) (m : MatchEntry) :
    accepts o best m = true ↔
      o.matching_score_threshold ≤ m.1 ∧ best * o.matching_score_ratio ≤ m.1 := by
  simp [accepts]

theorem takeWhile_eq_take_spec {α : Type} (p : α → Bool) (l : List α) :
    ∃ k, l.takeWhile p = l.take k ∧ (∀ a ∈ l.take k, p a = true) ∧
      (k = l.length ∨ ∃ h : k < l.length, p (l.get ⟨k, h⟩) = false) := by
  induction l with
  | nil => exact ⟨0, rfl, by simp, Or.inl rfl⟩
  | cons a l ih =>
    cases hp : p a with
    | false =>
      refine ⟨0, ?_, by simp, Or.inr ⟨Nat.succ_pos _, ?_⟩⟩
      · simp [List.takeWhile_cons, hp]
      · simpa using hp
    | true =>
      obtain ⟨k, hk1, hk2, hk3⟩ := ih
      refine ⟨k + 1, ?_, ?_, ?_⟩
      · simp [List.takeWhile_cons, hp, hk1]
      · intro x hx
        rw [List.take_succ_cons] at hx
        rcases List.mem_cons.mp hx with rfl | hx
        · exact hp
        · exact hk2 x hx
      · rcases hk3 with h | ⟨h, hf⟩
        · exact Or.inl (by simp [h])
        · exact Or.inr ⟨Nat.succ_lt_succ h, by simpa using hf⟩

theorem length_takeWhile_le_of_false {α : Type} (p : α → Bool) :
    ∀ (l : List α) (i : Nat) (h : i < l.length),
      p (l.get ⟨i, h⟩) = false → (l.takeWhile p).length ≤ i := by
  intro l
  induction l with
  | nil => intro i h; exact absurd h (Nat.not_lt_zero i)
  | cons a l ih =>
    intro i h hf
    cases hpa : p a with
    | false => simp [List.takeWhile_cons, hpa]
    | true =>
      cases i with
      | zero => rw [List.get] at hf; rw [hpa] at hf; cases hf
      | succ i =>
        rw [List.takeWhile_cons, if_pos hpa, List.length_cons]
        exact Nat.succ_le_succ (ih i (Nat.lt_of_succ_lt_succ h) (by simpa using hf))

/-! ## C1: acceptance policy of `pick_only_accurate_matches` -/

/-- C1: on a non-empty, descending-sorted match list, the acceptance
policy returns nothing when the best score misses the threshold, and
otherwise returns the first match followed by exactly the longest prefix
of the remaining matches whose every entry meets the threshold and the
best-score ratio, stopping at the first failing entry; every returned
match meets the threshold, and once an entry at position `i` of the tail
fails, nothing past position `i` is returned. -/
theorem pick_only_accurate_matches_spec (o : MatchingOptions) (m0 : MatchEntry)
    (rest : List MatchEntry) (hsorted : SortedDesc (m0 :: rest)) :
    (m0.1 < o.matching_score_threshold →
      pick_only_accurate_matches o (m0 :: rest) = []) ∧
    (o.matching_score_threshold ≤ m0.1 →
      ∃ k, pick_only_accurate_matches o (m0 :: rest) = m0 :: rest.take k ∧
        (∀ m ∈ rest.take k, accepts o m0.1 m = true) ∧
        (k = rest.length ∨
          ∃ h : k < rest.length, accepts o m0.1 (rest.get ⟨k, h⟩) = false)) ∧
    (∀ m ∈ pick_only_accurate_matches o (m0 :: rest),
      o.matching_score_threshold ≤ m.1) ∧
    (∀ i, ∀ h : i < rest.length, accepts o m0.1 (rest.get ⟨i, h⟩) = false →
      (pick_only_accurate_matches o (m0 :: rest)).length ≤ i + 1) := by
  by_cases hbest : o.matching_score_threshold ≤ m0.1
  · have hpick : pick_only_accurate_matches o (m0 :: rest)
        = m0 :: rest.takeWhile (accepts o m0.1) := by
      simp [pick_only_accurate_matches, best_score_of, hbest]
    refine ⟨fun hlt => absurd hbest (not_le.mpr hlt), fun _ => ?_, ?_, ?_⟩
    · obtain ⟨k, h1, h2, h3⟩ := takeWhile_eq_take_spec (accepts o m0.1) rest
      exact ⟨k, by rw [hpick, h1], h2, h3⟩
    · intro m hm
      rw [hpick] at hm
      rcases List.mem_cons.mp hm with rfl | hm
      · exact hbest
      · obtain ⟨k, h1, h2, _⟩ := takeWhile_eq_take_spec (accepts o m0.1) rest
        rw [h1] at hm
        exact ((accepts_eq_true_iff o m0.1 m).mp (h2 m hm)).1
    · intro i h hf
      rw [hpick, List.length_cons]
      exact Nat.succ_le_succ (length_takeWhile_le_of_false (accepts o m0.1) rest i h hf)
  · have hpick : pick_only_accurate_matches o (m0 :: rest) = [] := by
      simp [pick_only_accurate_matches, best_score_of, hbest]
    refine ⟨fun _ => hpick, fun hle => absurd hle hbest, ?_, ?_⟩
    · intro m hm
      rw [hpick] at hm
      cases hm
    · intro i h hf
      rw [hpick]
      exact Nat.zero_le _

/-- Witness for C1 at the end-to-end scores of the spec: with threshold
6/10 and score ratio 9/10 on scores 91/100, 85/100, 40/100, the entry at
tail position 1 fails the test, so at most two matches are returned. -/
theorem pick_only_accurate_matches_spec_witness :
    (pick_only_accurate_matches ⟨mkRat 6 10, mkRat 9 10⟩
      [(mkRat 91 100, 0), (mkRat 85 100, 1), (mkRat 40 100, 2)]).length ≤ 1 + 1 :=
  (pick_only_accurate_matches_spec ⟨mkRat 6 10, mkRat 9 10⟩ (mkRat 91 100, 0)
    [(mkRat 85 100, 1), (mkRat 40 100, 2)] (by decide)).2.2.2 1 (by decide) (by decide)

/-! ## C2: the matching loop stops at the first good candidate -/

/-- C2: candidates are consulted in order, and when every candidate of a
prefix fails descriptor extraction or produces no match good enough to
stop (an empty list, or a top score below the threshold), while the next
candidate's ranked matches are non-empty with top score meeting the
threshold, the scanning loop of `match_item` consults exactly the prefix
plus that one candidate — the count of consulted candidates is the
prefix length plus one, independent of whatever comes after — and keeps
that candidate's matches, whatever the accumulated matches were. In
particular, failing candidates are skipped to the next one and no
candidate after the stopping one is ever queried. -/
theorem match_scan_stops_at_first_good (thr : ℚ)
    (pre : List (Option (List MatchEntry)))
    (hpre : ∀ c ∈ pre, c = none ∨
      ∃ ms', c = some ms' ∧ ∀ m' tl', ms' = m' :: tl' → m'.1 < thr)
    (m0 : MatchEntry) (tl : List MatchEntry) (hthr : thr ≤ m0.1)
    (rest : List (Option (List MatchEntry))) :
    ∀ acc, match_scan thr acc (pre ++ some (m0 :: tl) :: rest) =
      (pre.length + 1, m0 :: tl) := by
  induction pre with
  | nil =>
    intro acc
    simp [match_scan, hthr]
  | cons c pre ih =>
    intro acc
    have ih2 := ih fun c hc => hpre c (List.mem_cons_of_mem _ hc)
    rcases hpre c (List.mem_cons_self c pre) with rfl | ⟨ms', rfl, hms'⟩
    · simp only [List.cons_append, match_scan, List.append_eq, ih2,
        List.length_cons]
    · cases ms' with
      | nil =>
        simp only [List.cons_append, match_scan, List.append_eq, ih2,
          List.length_cons]
      | cons m' tl' =>
        have hlt : m'.1 < thr := hms' m' tl' rfl
        simp only [List.cons_append, match_scan, List.append_eq, ih2,
          List.length_cons, if_neg (not_le.mpr hlt)]

/-- Witness for C2 at the spec's scenario shape: five candidates where
the third is the first with an extractable descriptor set and its top
score meets the threshold; exactly three candidates are consulted. -/
theorem match_scan_stops_at_first_good_witness :
    match_scan (mkRat 6 10) []
      [none, none, some [(mkRat 7 10, 0)], some [(mkRat 9 10, 1)], none] =
      (3, [(mkRat 7 10, 0)]) :=
  match_scan_stops_at_first_good (mkRat 6 10) [none, none]
    (by
      intro c hc
      rcases List.mem_cons.mp hc with rfl | hc2
      · exact Or.inl rfl
      rcases List.mem_cons.mp hc2 with rfl | hc3
      · exact Or.inl rfl
      · cases hc3)
    (mkRat 7 10, 0) [] (by decide) [some [(mkRat 9 10, 1)], none] []

/-! ## C3: when the nothing-recognized cue is played -/

theorem match_outcome_of_eq_nothing (o : MatchingOptions) (ms : List MatchEntry) :
    match_outcome_of o ms = .nothingRecognized ↔ ms = [] := by
  cases ms with
  | nil => simp [match_outcome_of]
  | cons m tl =>
    simp only [match_outcome_of]
    rcases hacc : pick_only_accurate_matches o (m :: tl) with _ | ⟨⟨s, i⟩, _ | ⟨m2, tl2⟩⟩ <;>
      simp

theorem match_scan_snd_nil_of_trivial (thr : ℚ)
    (cands : List (Option (List MatchEntry)))
    (h : ∀ c ∈ cands, c = none ∨ c = some []) :
    (match_scan thr [] cands).2 = [] := by
  induction cands with
  | nil => rfl
  | cons c cs ih =>
    have ih2 := ih fun c hc => h c (List.mem_cons_of_mem _ hc)
    rcases h c (List.mem_cons_self c cs) with rfl | rfl <;>
      simp [match_scan, ih2]

/-- C3 counterexample: with threshold 6/10, a first candidate yielding
the non-empty match list [(1/2, 0)] (below threshold, so no early stop)
followed by a second candidate yielding the empty list makes `match_item`
play the nothing-recognized cue even though a candidate did yield a
non-empty match list — refuting the claimed "only when every candidate
fails to produce matches". -/
theorem match_item_nothing_cex :
    match_item ⟨mkRat 6 10, mkRat 9 10⟩ [some [(mkRat 1 2, 0)], some []] =
        .nothingRecognized ∧
      some [(mkRat 1 2, 0)] ∈ [some [(mkRat 1 2, 0)], some ([] : List MatchEntry)] ∧
      [(mkRat 1 2, 0)] ≠ ([] : List MatchEntry) := by
  refine ⟨by decide, by decide, by decide⟩

/-- C3 (amended): `match_item` plays the nothing-recognized cue exactly
when the match list retained at the end of the scanning loop — the list
returned by the last candidate that did not raise, or the empty list if
none returned — is empty; in particular the cue is played whenever every
candidate either raises or yields no matches, but an earlier candidate's
non-empty matches can be superseded by a later candidate's empty list. -/
theorem match_item_nothing_iff (o : MatchingOptions)
    (cands : List (Option (List MatchEntry))) :
    (match_item o cands = .nothingRecognized ↔
      (match_scan o.matching_score_threshold [] cands).2 = []) ∧
    ((∀ c ∈ cands, c = none ∨ c = some []) →
      match_item o cands = .nothingRecognized) := by
  constructor
  · exact match_outcome_of_eq_nothing o _
  · intro h
    unfold match_item
    rw [match_scan_snd_nil_of_trivial o.matching_score_threshold cands h]
    rfl

/-- Witness for C3's amended statement: two candidates, one raising and
one yielding no matches, make the cue play. -/
theorem match_item_nothing_iff_witness :
    match_item ⟨mkRat 6 10, mkRat 9 10⟩ [none, some []] = .nothingRecognized :=
  (match_item_nothing_iff ⟨mkRat 6 10, mkRat 9 10⟩ [none, some []]).2 (by decide)

/-! ## C4: outcome classification by size of the accurate set -/

theorem sortedDesc_pick (o : MatchingOptions) (ms : List MatchEntry)
    (h : SortedDesc ms) : SortedDesc (pick_only_accurate_matches o ms) := by
  cases ms with
  | nil =>
    simp [pick_only_accurate_matches, best_score_of, SortedDesc]
  | cons m0 rest =>
    by_cases hb : o.matching_score_threshold ≤ m0.1
    · have hpick : pick_only_accurate_matches o (m0 :: rest)
          = m0 :: rest.takeWhile (accepts o m0.1) := by
        simp [pick_only_accurate_matches, best_score_of, hb]
      rw [hpick]
      have hsub : (m0 :: rest.takeWhile (accepts o m0.1)).Sublist (m0 :: rest) :=
        List.Sublist.cons₂ m0 (List.takeWhile_sublist _)
      exact List.Pairwise.sublist hsub h
    · simp [pick_only_accurate_matches, best_score_of, hb, SortedDesc]

unseal Rat.mul in
/-- C4: when the scanning loop of `match_item` retains a non-empty,
descending-sorted match list, the accurate set computed by the acceptance
policy drives the outcome: empty set plays the no-item audio, a singleton
plays that single item's label, and a set of two or more plays the
multiple-items cue followed by the labels in descending-score order (the
played list is the accurate set, still sorted descending). The two
end-to-end scenarios of the spec are instances: scores 91/100, 85/100,
40/100 at threshold 6/10 and score ratio 9/10 give the multiple-items
outcome over the first two matches in order, and 65/100, 50/100 give single-label
playback. -/
theorem match_item_outcomes (o : MatchingOptions)
    (cands : List (Option (List MatchEntry)))
    (hne : (match_scan o.matching_score_threshold [] cands).2 ≠ [])
    (hsorted : SortedDesc (match_scan o.matching_score_threshold [] cands).2) :
    (pick_only_accurate_matches o
        (match_scan o.matching_score_threshold [] cands).2 = [] →
      match_item o cands = .noItem) ∧
    (∀ s i, pick_only_accurate_matches o
        (match_scan o.matching_score_threshold [] cands).2 = [(s, i)] →
      match_item o cands = .singleItem s i) ∧
    (2 ≤ (pick_only_accurate_matches o
        (match_scan o.matching_score_threshold [] cands).2).length →
      match_item o cands = .multipleItems (pick_only_accurate_matches o
        (match_scan o.matching_score_threshold [] cands).2) ∧
      SortedDesc (pick_only_accurate_matches o
        (match_scan o.matching_score_threshold [] cands).2)) ∧
    (match_item ⟨mkRat 6 10, mkRat 9 10⟩
        [some [(mkRat 91 100, 0), (mkRat 85 100, 1), (mkRat 40 100, 2)]] =
      .multipleItems [(mkRat 91 100, 0), (mkRat 85 100, 1)]) ∧
    (match_item ⟨mkRat 6 10, mkRat 9 10⟩
        [some [(mkRat 65 100, 0), (mkRat 50 100, 1)]] =
      .singleItem (mkRat 65 100) 0) := by
  rcases hmt : (match_scan o.matching_score_threshold [] cands).2 with _ | ⟨m, tl⟩
  · exact absurd hmt hne
  · have hitem : match_item o cands = match_outcome_of o (m :: tl) :=
      congrArg (match_outcome_of o) hmt
    refine ⟨?_, ?_, ?_, by decide, by decide⟩
    · intro hp
      rw [hitem]
      simp [match_outcome_of, hp]
    · intro s i hp
      rw [hitem]
      simp [match_outcome_of, hp]
    · intro hlen
      have hs := sortedDesc_pick o _ hsorted
      rw [hmt] at hs
      refine ⟨?_, hs⟩
      rcases hacc : pick_only_accurate_matches o (m :: tl) with _ | ⟨⟨s1, i1⟩, _ | ⟨b, tl2⟩⟩
      · rw [hacc] at hlen
        simp at hlen
      · rw [hacc] at hlen
        simp at hlen
      · rw [hitem]
        simp [match_outcome_of, hacc]

/-- Witness for C4 on the first end-to-end scenario of the spec,
instantiating its hypotheses at the concrete candidate list. -/
theorem match_item_outcomes_witness :
    match_item ⟨mkRat 6 10, mkRat 9 10⟩
        [some [(mkRat 91 100, 0), (mkRat 85 100, 1), (mkRat 40 100, 2)]] =
      .multipleItems [(mkRat 91 100, 0), (mkRat 85 100, 1)] :=
  (match_item_outcomes ⟨mkRat 6 10, mkRat 9 10⟩
    [some [(mkRat 91 100, 0), (mkRat 85 100, 1), (mkRat 40 100, 2)]]
    (by decide) (by decide)).2.2.2.1

/-! ## C5: richest-frame selection in `record_new_item` -/

theorem goodPick_step (l : List (Option Nat)) (b : Option (Nat × Nat))
    (f : Option Nat) (hb : GoodPick l b) :
    GoodPick (l ++ [f]) (pick_step l.length b f) := by
  cases f with
  | none =>
    cases b with
    | none =>
      intro g hg
      rcases List.mem_append.mp hg with h | h
      · exact hb g h
      · simpa using h
    | some ic =>
      obtain ⟨i, c⟩ := ic
      obtain ⟨hi, hopt⟩ := hb
      have hilen : i < l.length := (List.getElem?_eq_some.mp hi).1
      refine ⟨?_, ?_⟩
      · rw [List.getElem?_append_left hilen]
        exact hi
      · intro j cj hj
        by_cases hjl : j < l.length
        · rw [List.getElem?_append_left hjl] at hj
          exact hopt j cj hj
        · rw [List.getElem?_append_right (Nat.le_of_not_lt hjl)] at hj
          cases hk : j - l.length with
          | zero => rw [hk] at hj; simp at hj
          | succ k => rw [hk] at hj; simp at hj
  | some c =>
    cases b with
    | none =>
      have hall : ∀ g ∈ l, g = none := hb
      refine ⟨?_, ?_⟩
      · rw [List.getElem?_append_right (Nat.le_refl _)]
        simp
      · intro j cj hj
        by_cases hjl : j < l.length
        · rw [List.getElem?_append_left hjl] at hj
          exact absurd (hall _ (List.getElem?_mem hj)) (by simp)
        · have hge := Nat.le_of_not_lt hjl
          rw [List.getElem?_append_right hge] at hj
          cases hk : j - l.length with
          | zero =>
            rw [hk] at hj
            simp at hj
            omega
          | succ k => rw [hk] at hj; simp at hj
    | some bic =>
      obtain ⟨bi, bc⟩ := bic
      obtain ⟨hi, hopt⟩ := hb
      have hbilen : bi < l.length := (List.getElem?_eq_some.mp hi).1
      by_cases hcmp : bc < c
      · simp only [pick_step, if_pos hcmp]
        refine ⟨?_, ?_⟩
        · rw [List.getElem?_append_right (Nat.le_refl _)]
          simp
        · intro j cj hj
          by_cases hjl : j < l.length
          · rw [List.getElem?_append_left hjl] at hj
            have h1 := hopt j cj hj
            exact ⟨by omega, by omega⟩
          · have hge := Nat.le_of_not_lt hjl
            rw [List.getElem?_append_right hge] at hj
            cases hk : j - l.length with
            | zero =>
              rw [hk] at hj
              simp at hj
              omega
            | succ k => rw [hk] at hj; simp at hj
      · simp only [pick_step, if_neg hcmp]
        refine ⟨?_, ?_⟩
        · rw [List.getElem?_append_left hbilen]
          exact hi
        · intro j cj hj
          by_cases hjl : j < l.length
          · rw [List.getElem?_append_left hjl] at hj
            exact hopt j cj hj
          · have hge := Nat.le_of_not_lt hjl
            rw [List.getElem?_append_right hge] at hj
            cases hk : j - l.length with
            | zero =>
              rw [hk] at hj
              simp at hj
              omega
            | succ k => rw [hk] at hj; simp at hj

theorem pick_richest_from_good (fs : List (Option Nat)) :
    ∀ (l : List (Option Nat)) (b : Option (Nat × Nat)), GoodPick l b →
      GoodPick (l ++ fs) (pick_richest_from b l.length fs) := by
  induction fs with
  | nil =>
    intro l b hb
    simpa using hb
  | cons f fs ih =>
    intro l b hb
    have step := goodPick_step l b f hb
    have h1 := ih (l ++ [f]) (pick_step l.length b f) step
    have h2 : (l ++ [f]) ++ fs = l ++ f :: fs := by simp
    have h3 : (l ++ [f]).length = l.length + 1 := by simp
    rw [h2, h3] at h1
    exact h1

theorem pick_richest_good (frames : List (Option Nat)) :
    GoodPick frames (pick_richest frames) := by
  have h := pick_richest_from_good frames [] none
    (fun f hf => absurd hf (List.not_mem_nil f))
  simpa using h

/-- C5: in `record_new_item`, frames failing descriptor extraction are
passed over; if every frame fails, the nothing-recognized cue plays and
nothing is committed; otherwise the committed frame is one whose
descriptor count no other frame exceeds, and any frame tying that count
does not come earlier (the first-seen frame wins ties). On descriptor
counts [failure, 5, 12, 8] the frame with 12 (index 2) is committed. -/
theorem record_new_item_spec (frames : List (Option Nat)) :
    ((∀ f ∈ frames, f = none) → record_new_item frames = .nothingRecognized) ∧
    (∀ i c, pick_richest frames = some (i, c) →
      record_new_item frames = .committed i c ∧
      frames[i]? = some (some c) ∧
      ∀ j cj, frames[j]? = some (some cj) → cj ≤ c ∧ (cj = c → i ≤ j)) ∧
    record_new_item [none, some 5, some 12, some 8] = .committed 2 12 := by
  have hgood := pick_richest_good frames
  refine ⟨?_, ?_, by decide⟩
  · intro hall
    cases hp : pick_richest frames with
    | none => simp [record_new_item, hp]
    | some ic =>
      obtain ⟨i, c⟩ := ic
      rw [hp] at hgood
      obtain ⟨hi, _⟩ := hgood
      exact absurd (hall _ (List.getElem?_mem hi)) (by simp)
  · intro i c hp
    rw [hp] at hgood
    obtain ⟨hi, hopt⟩ := hgood
    exact ⟨by simp [record_new_item, hp], hi, hopt⟩

/-- Witness for C5: an all-failing candidate list plays the cue, and the
spec's descriptor-count scenario commits index 2 with count 12, which is
indeed stored there. -/
theorem record_new_item_spec_witness :
    record_new_item [none, none] = RecordOutcome.nothingRecognized ∧
    record_new_item [none, some 5, some 12, some 8] = RecordOutcome.committed 2 12 ∧
    [none, some 5, some 12, some 8][2]? = some (some 12) :=
  ⟨(record_new_item_spec [none, none]).1 (by decide),
    ((record_new_item_spec [none, some 5, some 12, some 8]).2.1 2 12 (by decide)).1,
    ((record_new_item_spec [none, some 5, some 12, some 8]).2.1 2 12 (by decide)).2.1⟩

/-! ## C6: the two-phase reveal-by-difference strategy -/

/-- C6: with no pending reveal, `capture_by_unhiding` stores the freshly
captured reference frame in the pending slot and returns the retry value
0; with a pending reveal it clears the slot at entry and returns a frame
list of exactly one frame (the isolation of the stored reference against
the newly captured frame); chaining phase 1 into phase 2 uses exactly the
phase-1 frame, and a third invocation — run on the slot left by phase
2 — behaves exactly like a first invocation. -/
theorem capture_by_unhiding_two_phase (F : Type) (isolate : F → F → F)
    (c1 c2 c3 full : F) :
    capture_by_unhiding F isolate none c1 = (.delay 0, some c1) ∧
    capture_by_unhiding F isolate (some full) c2 =
      (.frames [isolate full c2], none) ∧
    capture_by_unhiding F isolate
        (capture_by_unhiding F isolate none c1).2 c2 =
      (.frames [isolate c1 c2], none) ∧
    capture_by_unhiding F isolate
        (capture_by_unhiding F isolate (some full) c2).2 c3 =
      capture_by_unhiding F isolate none c3 :=
  ⟨rfl, rfl, rfl, rfl⟩

/-! ## C7: which frames the stability detector compares -/

theorem stability_run_compared_from_some (F : Type) (diff : F → F → ℚ)
    (limit : ℚ) :
    ∀ (frames : List F) (p : F) (n : Nat) (ps : List (F × F)),
      (stability_run F diff limit
          { previous_frame := some p, stable_captured_frames := n
            compared := ps } frames).compared =
        ps ++ (p :: frames).zip frames := by
  intro frames
  induction frames with
  | nil =>
    intro p n ps
    simp [stability_run]
  | cons f fs ih =>
    intro p n ps
    have h1 : stability_run F diff limit
        { previous_frame := some p, stable_captured_frames := n
          compared := ps } (f :: fs) =
        stability_run F diff limit
          { previous_frame := some f
            stable_captured_frames := if diff p f ≤ limit then n + 1 else 0
            compared := ps ++ [(p, f)] } fs := rfl
    rw [h1, ih f _ (ps ++ [(p, f)])]
    simp [List.zip_cons_cons]

/-- C7 counterexample: in the phase-2 loop of `capture_by_unhiding`,
where `previous_frame` starts as the phase-1 reference frame, capturing
the single frame 5 performs one stability comparison, pairing that very
first captured frame against the reference frame 100 — a frame captured
before the loop began and not among the loop's captured frames — so the
first captured frame is not skipped there. -/
theorem stability_first_frame_cex :
    (stability_run ℤ diff_abs 10 (unhiding_init ℤ 100) [5]).compared =
        [(100, 5)] ∧
      (100 : ℤ) ∉ [(5 : ℤ)] := by
  exact ⟨rfl, by decide⟩

/-- C7 (amended): in the loops of `capture_by_subtracting` and
`capture_moving_objects` (whose `previous_frame` starts as `None`) the
first captured frame has no predecessor and is skipped, and every later
frame is compared exactly against the immediately preceding captured
frame; in the phase-2 loop of `capture_by_unhiding` (whose
`previous_frame` starts as the phase-1 reference frame) the first
captured frame is compared against that pre-loop reference frame, and
every later frame against the immediately preceding captured frame. -/
theorem stability_comparison_pairs (F : Type) (diff : F → F → ℚ)
    (limit : ℚ) (frames : List F) (full_image : F) :
    (stability_run F diff limit (subtracting_init F) frames).compared =
      frames.zip frames.tail ∧
    (stability_run F diff limit (unhiding_init F full_image) frames).compared =
      (full_image :: frames).zip frames := by
  constructor
  · cases frames with
    | nil => rfl
    | cons f fs =>
      have h1 : stability_run F diff limit (subtracting_init F) (f :: fs) =
          stability_run F diff limit
            { previous_frame := some f, stable_captured_frames := 0
              compared := [] } fs := rfl
      rw [h1, stability_run_compared_from_some F diff limit fs f 0 []]
      simp
  · exact stability_run_compared_from_some F diff limit frames full_image 0 []

/-! ## C8: unknown capture strategy name is fatal -/

/-- C8: when the configured strategy name is none of the three known
names, `capture_frames_then` raises at once (the `Except.error` result):
no strategy is executed (the result does not depend on `run`), no
callback receives frames, and nothing — in particular no retry — is
scheduled. -/
theorem capture_frames_then_unknown (F : Type) (run : String → PyCaptureResult F)
    (s : String) (h1 : s ≠ "keep-everything") (h2 : s ≠ "now-you-see-me")
    (h3 : s ≠ "moving-object") :
    capture_frames_then F run s =
      .error { busy := true, callback_frames := none, scheduled := none } := by
  simp [capture_frames_then, h1, h2, h3]

/-- Witness for C8 at the unknown name "bogus". -/
theorem capture_frames_then_unknown_witness :
    capture_frames_then Nat (fun _ => PyCaptureResult.frames []) "bogus" =
      .error { busy := true, callback_frames := none, scheduled := none } :=
  capture_frames_then_unknown Nat (fun _ => PyCaptureResult.frames []) "bogus"
    (by decide) (by decide) (by decide)

/-! ## C9: the bounded frame window of `capture_by_subtracting` -/

theorem window_append_length_le (F : Type) (bound : Nat) (w : List F) (f : F)
    (h : w.length ≤ bound) : (window_append F bound w f).length ≤ bound := by
  unfold window_append
  by_cases hlt : bound < (w ++ [f]).length
  · rw [if_pos hlt]
    simp at hlt ⊢
    omega
  · rw [if_neg hlt]
    simp at hlt ⊢
    omega

theorem capture_window_length_le (F : Type) (o : MotionOptions)
    (frames : List F) :
    (capture_window F o frames).length ≤ expected_number_of_frames o := by
  have key : ∀ (fs : List F) (w : List F),
      w.length ≤ expected_number_of_frames o →
      (fs.foldl (window_append F (expected_number_of_frames o)) w).length ≤
        expected_number_of_frames o := by
    intro fs
    induction fs with
    | nil => intro w hw; simpa using hw
    | cons f fs ih =>
      intro w hw
      rw [List.foldl_cons]
      exact ih _ (window_append_length_le F _ w f hw)
  exact key frames [] (by simp)

/-- C9: in the subtract-while-moving acquisition loop, starting from a
window within the bound `motion_skip_frames + matching_n_frames`, an
append that stays within the bound keeps every frame, an append that
would exceed it first evicts the oldest frame, and the window never
exceeds the bound; since the whole acquisition is a fold of this single
append-with-eviction step from the empty window, the bound holds after
every append step of the loop. -/
theorem window_append_spec (F : Type) (o : MotionOptions) (w : List F) (f : F)
    (h : w.length ≤ expected_number_of_frames o) :
    (window_append F (expected_number_of_frames o) w f).length ≤
      expected_number_of_frames o ∧
    (w.length < expected_number_of_frames o →
      window_append F (expected_number_of_frames o) w f = w ++ [f]) ∧
    (w.length = expected_number_of_frames o →
      window_append F (expected_number_of_frames o) w f = (w ++ [f]).tail) ∧
    (∀ frames : List F,
      (capture_window F o frames).length ≤ expected_number_of_frames o) := by
  refine ⟨window_append_length_le F _ w f h, ?_, ?_,
    capture_window_length_le F o⟩
  · intro hlt
    unfold window_append
    rw [if_neg]
    simp
    omega
  · intro heq
    unfold window_append
    rw [if_pos]
    simp
    omega

/-- Witness for C9: with skip 1 and matching 2 (bound 3) and a full
window, the append evicts the oldest frame and stays at the bound. -/
theorem window_append_spec_witness :
    (window_append Nat (expected_number_of_frames ⟨1, 2⟩) [10, 20, 30] 40).length ≤
        expected_number_of_frames ⟨1, 2⟩ ∧
      window_append Nat (expected_number_of_frames ⟨1, 2⟩) [10, 20, 30] 40 =
        ([10, 20, 30] ++ [40]).tail :=
  ⟨(window_append_spec Nat ⟨1, 2⟩ [10, 20, 30] 40 (by decide)).1,
    (window_append_spec Nat ⟨1, 2⟩ [10, 20, 30] 40 (by decide)).2.2.1 (by decide)⟩

/-! ## C10: a raising `capture_frames_then` wedges the busy flag -/

/-- C10: `capture_frames_then` sets the busy flag at entry, and on an
unknown strategy name it raises with the flag still set, having scheduled
nothing — in particular not `ready`, the only operation that clears the
flag (to `false`); while the flag is set, `button_handler` ignores every
event and `keyboard_handler` ignores every key, including the quit key
`q`; so the fatal error leaves the program deaf to all further input. -/
theorem busy_flag_stuck_after_error (F : Type)
    (run : String → PyCaptureResult F) (s : String)
    (h1 : s ≠ "keep-everything") (h2 : s ≠ "now-you-see-me")
    (h3 : s ≠ "moving-object") :
    capture_frames_then F run s =
      .error { busy := true, callback_frames := none, scheduled := none } ∧
    (∀ event : String, button_handler true event = .ignored) ∧
    (∀ key : Option Char, keyboard_handler true key = .ignored) ∧
    keyboard_handler true (some 'q') = .ignored ∧
    ready = false := by
  refine ⟨?_, fun _ => rfl, fun _ => rfl, rfl, rfl⟩
  simp [capture_frames_then, h1, h2, h3]

/-- Witness for C10 at the unknown name "bogus". -/
theorem busy_flag_stuck_after_error_witness :
    capture_frames_then Nat (fun _ => PyCaptureResult.frames []) "bogus" =
        .error { busy := true, callback_frames := none, scheduled := none } ∧
      keyboard_handler true (some 'q') = .ignored :=
  ⟨(busy_flag_stuck_after_error Nat (fun _ => PyCaptureResult.frames []) "bogus"
      (by decide) (by decide) (by decide)).1,
    (busy_flag_stuck_after_error Nat (fun _ => PyCaptureResult.frames []) "bogus"
      (by decide) (by decide) (by decide)).2.2.2.1⟩

end Lighthouse
